import Mathlib

/-!
A shallow embedding of the `quadtree` Rust crate (`src/lib.rs`): a generic
in-memory 2D spatial index over axis-aligned rectangles, with `put` and
`query`.  The `f64` coordinates of the source are modelled as exact
rationals; machine integers (`usize`, `u8`) as `Nat`.  Mutation of the
tree (`put`) is modelled as a pure function returning the new tree, and
the imperative loops of the source become structural recursions.
-/

/-- Mirror of `struct Point { x: f64, y: f64 }`. -/
structure Point where
  x : ℚ
  y : ℚ
deriving DecidableEq

/-- Mirror of `struct Rectangle { x, y, width, height : f64 }`. -/
structure Rectangle where
  x : ℚ
  y : ℚ
  width : ℚ
  height : ℚ
deriving DecidableEq

/-- Mirror of `struct Options { max_items: usize, max_depth: u8, depth: u8 }`. -/
structure Options where
  max_items : Nat
  max_depth : Nat
  depth : Nat
deriving DecidableEq

/-- Mirror of `impl Default for Options`: `{ max_items: 20, max_depth: 3, depth: 0 }`. -/
def defaultOptions : Options := ⟨20, 3, 0⟩

/-- Mirror of `trait Position { fn position(&self) -> Point; }`. -/
class Position (α : Type) where
  position : α → Point

export Position (position)

/-- Mirror of `struct Item<'a, T> { point: Point, data: &'a T }`. -/
structure Item (α : Type) where
  point : Point
  data : α
deriving DecidableEq

/-- Mirror of `impl Position for Item`: the stored coordinate snapshot. -/
instance {α : Type} : Position (Item α) := ⟨Item.point⟩

/-- Mirror of `struct Quadtree<T>`: bounds fields `x, y, width, height`, an
`items` list, `children: Option<[Box<Quadtree<T>>; 4]>` and `options`.
The `Option` of the children array is split into the two constructors:
`leaf` is a node with `children == None`, `branch` one with four children. -/
inductive Quadtree (α : Type) : Type where
  | leaf (x : ℚ) (y : ℚ) (width : ℚ) (height : ℚ) (items : List α) (options : Options)
  | branch (x : ℚ) (y : ℚ) (width : ℚ) (height : ℚ) (items : List α)
      (c0 : Quadtree α) (c1 : Quadtree α) (c2 : Quadtree α) (c3 : Quadtree α)
      (options : Options)
deriving DecidableEq

/-- The four children of a subdivided node, in the source's fixed order. -/
abbrev Children (α : Type) := Quadtree α × Quadtree α × Quadtree α × Quadtree α

namespace Quadtree

variable {α : Type}

/-- Field accessor for `self.items`. -/
def items : Quadtree α → List α
  | .leaf _ _ _ _ l _ => l
  | .branch _ _ _ _ l _ _ _ _ _ => l

/-- Field accessor for `self.children` (`None` on a leaf). -/
def children : Quadtree α → Option (Children α)
  | .leaf _ _ _ _ _ _ => none
  | .branch _ _ _ _ _ c0 c1 c2 c3 _ => some (c0, c1, c2, c3)

/-- Field accessor for `self.options`. -/
def options : Quadtree α → Options
  | .leaf _ _ _ _ _ o => o
  | .branch _ _ _ _ _ _ _ _ _ o => o

/-- Mirror of `fn bounds(&self) -> Rectangle`. -/
def bounds : Quadtree α → Rectangle
  | .leaf x y w h _ _ => ⟨x, y, w, h⟩
  | .branch x y w h _ _ _ _ _ _ => ⟨x, y, w, h⟩

/-- Mirror of `fn with_options(boundary: Rectangle, options: Options) -> Self`:
a leaf with the given bounds, no items, no children. -/
def with_options (boundary : Rectangle) (options : Options) : Quadtree α :=
  .leaf boundary.x boundary.y boundary.width boundary.height [] options

/-- Mirror of `fn new(boundary: Rectangle) -> Self`. -/
def new (boundary : Rectangle) : Quadtree α :=
  with_options boundary defaultOptions

end Quadtree

/-- Mirror of `fn _contains(&self, point: &Point, boundary: &Rectangle) -> bool`
(the receiver is unused in the source): inclusive containment on all four
edges. -/
def _contains (point : Point) (boundary : Rectangle) : Prop :=
  point.x ≥ boundary.x ∧ point.x ≤ boundary.x + boundary.width ∧
    point.y ≥ boundary.y ∧ point.y ≤ boundary.y + boundary.height

instance (point : Point) (boundary : Rectangle) : Decidable (_contains point boundary) := by
  unfold _contains
  infer_instance

/-- Mirror of `fn intersects(&self, rectangle: &Rectangle, boundary: &Rectangle) -> bool`
(the receiver is unused in the source): strict overlap test. -/
def intersects (rectangle : Rectangle) (boundary : Rectangle) : Prop :=
  rectangle.x < boundary.x + boundary.width ∧
    rectangle.x + rectangle.width > boundary.x ∧
    rectangle.y < boundary.y + boundary.height ∧
    rectangle.y + rectangle.height > boundary.y

instance (rectangle : Rectangle) (boundary : Rectangle) : Decidable (intersects rectangle boundary) := by
  unfold intersects
  infer_instance

namespace Quadtree

variable {α : Type}

/-- Mirror of `fn contains(&self, item: &T) -> bool`. -/
def contains [Position α] (t : Quadtree α) (item : α) : Prop :=
  _contains (position item) t.bounds

instance [Position α] (t : Quadtree α) (item : α) : Decidable (t.contains item) := by
  unfold Quadtree.contains
  infer_instance

/-- Mirror of `fn subdivide(&self) -> [Box<Quadtree<T>>; 4]`: four leaves of
half the width and height, origins in the fixed quadrant order, each with
the parent's `max_items`/`max_depth` and `depth + 1`. -/
def subdivide (t : Quadtree α) : Children α :=
  let w := t.bounds.width / 2
  let h := t.bounds.height / 2
  (with_options ⟨t.bounds.x, t.bounds.y, w, h⟩
      ⟨t.options.max_items, t.options.max_depth, t.options.depth + 1⟩,
   with_options ⟨t.bounds.x + w, t.bounds.y, w, h⟩
      ⟨t.options.max_items, t.options.max_depth, t.options.depth + 1⟩,
   with_options ⟨t.bounds.x + w, t.bounds.y + h, w, h⟩
      ⟨t.options.max_items, t.options.max_depth, t.options.depth + 1⟩,
   with_options ⟨t.bounds.x, t.bounds.y + h, w, h⟩
      ⟨t.options.max_items, t.options.max_depth, t.options.depth + 1⟩)

/-- Overwrite the `items` field of a node (`self.items = ...`). -/
def setItems : Quadtree α → List α → Quadtree α
  | .leaf x y w h _ o, l => .leaf x y w h l o
  | .branch x y w h _ c0 c1 c2 c3 o, l => .branch x y w h l c0 c1 c2 c3 o

/-- Mirror of `child.items.push(item)`: append one item to a node's list. -/
def pushItem (t : Quadtree α) (item : α) : Quadtree α :=
  t.setItems (t.items ++ [item])

/-- Mirror of `self.children = Some(children)`: install the four children. -/
def setChildren : Quadtree α → Children α → Quadtree α
  | .leaf x y w h l o, cs => .branch x y w h l cs.1 cs.2.1 cs.2.2.1 cs.2.2.2 o
  | .branch x y w h l _ _ _ _ o, cs => .branch x y w h l cs.1 cs.2.1 cs.2.2.1 cs.2.2.2 o

end Quadtree

/-- Mirror of the `for child in children` routing loop of `put` (lines
163-171 and 176-181 of the source): push the item onto the first child (in
order 0,1,2,3) whose boundary contains it; if none does, do nothing (the
item is dropped). -/
def routeFirst {α : Type} [Position α] (cs : Children α) (item : α) : Children α :=
  if cs.1.contains item then (cs.1.pushItem item, cs.2.1, cs.2.2.1, cs.2.2.2)
  else if cs.2.1.contains item then (cs.1, cs.2.1.pushItem item, cs.2.2.1, cs.2.2.2)
  else if cs.2.2.1.contains item then (cs.1, cs.2.1, cs.2.2.1.pushItem item, cs.2.2.2)
  else if cs.2.2.2.contains item then (cs.1, cs.2.1, cs.2.2.1, cs.2.2.2.pushItem item)
  else cs

/-- Mirror of the drain loop `while let Some(it) = self.items.pop()` of
`put` (lines 175-182): the node's list is popped from the end until empty,
each popped item being routed to the first child containing it.  The list
argument here is the node's item list already reversed, so that popping
from the end becomes walking the list front to back. -/
def drainLoop {α : Type} [Position α] (cs : Children α) : List α → Children α
  | [] => cs
  | it :: rest => drainLoop (routeFirst cs it) rest

namespace Quadtree

variable {α : Type}

/-- Mirror of `fn put(&mut self, item: T)` (lines 150-186): out-of-bounds
items are dropped; an under-capacity leaf below `max_depth` appends; a node
with children routes to the first containing child; otherwise the leaf
pushes the item, subdivides, drains its whole list (from the end) into the
children, ending with an empty list and the four children installed. -/
def put [Position α] (t : Quadtree α) (item : α) : Quadtree α :=
  if ¬ t.contains item then t
  else
    match t with
    | .leaf x y w h items opts =>
        if items.length < opts.max_items ∧ opts.depth < opts.max_depth then
          .leaf x y w h (items ++ [item]) opts
        else
          (Quadtree.leaf x y w h ([] : List α) opts).setChildren
            (drainLoop (Quadtree.leaf x y w h (items ++ [item]) opts).subdivide
              (items ++ [item]).reverse)
    | .branch x y w h items c0 c1 c2 c3 opts =>
        (Quadtree.branch x y w h items c0 c1 c2 c3 opts).setChildren
          (routeFirst (c0, c1, c2, c3) item)

/-- Mirror of `fn query(&self, range: Rectangle) -> Vec<&T>` (lines
188-209): a node with children returns the concatenation of the four
children's results when its own bounds intersect `range`, and nothing
otherwise; a leaf accumulates (in insertion order) its items whose position
is contained in `range`. -/
def query [Position α] : Quadtree α → Rectangle → List α
  | .leaf _ _ _ _ items _, range =>
      items.foldl
        (fun acc it => if _contains (position it) range then acc ++ [it] else acc) []
  | .branch x y w h _ c0 c1 c2 c3 _, range =>
      if intersects range (⟨x, y, w, h⟩ : Rectangle) then
        c0.query range ++ c1.query range ++ c2.query range ++ c3.query range
      else []

end Quadtree

/-- A tree built through the public API: start from `with_options` and apply
`put` once per item, in order. -/
def build {α : Type} [Position α] (boundary : Rectangle) (opts : Options)
    (pts : List α) : Quadtree α :=
  pts.foldl Quadtree.put (Quadtree.with_options boundary opts)

/-- All items stored transitively in a tree, in node-before-children,
quadrant order. -/
def allItems {α : Type} : Quadtree α → List α
  | .leaf _ _ _ _ items _ => items
  | .branch _ _ _ _ items c0 c1 c2 c3 _ =>
      items ++ (allItems c0 ++ allItems c1 ++ allItems c2 ++ allItems c3)

/-- Quadrant 0 (top-left) of a rectangle, as computed by `subdivide`. -/
def quadrant0 (b : Rectangle) : Rectangle :=
  ⟨b.x, b.y, b.width / 2, b.height / 2⟩

/-- Quadrant 1 (top-right) of a rectangle, as computed by `subdivide`. -/
def quadrant1 (b : Rectangle) : Rectangle :=
  ⟨b.x + b.width / 2, b.y, b.width / 2, b.height / 2⟩

/-- Quadrant 2 (bottom-right) of a rectangle, as computed by `subdivide`. -/
def quadrant2 (b : Rectangle) : Rectangle :=
  ⟨b.x + b.width / 2, b.y + b.height / 2, b.width / 2, b.height / 2⟩

/-- Quadrant 3 (bottom-left) of a rectangle, as computed by `subdivide`. -/
def quadrant3 (b : Rectangle) : Rectangle :=
  ⟨b.x, b.y + b.height / 2, b.width / 2, b.height / 2⟩

/-- A point strictly inside a rectangle (in the interior, touching no edge). -/
def strictInside (p : Point) (b : Rectangle) : Prop :=
  b.x < p.x ∧ p.x < b.x + b.width ∧ b.y < p.y ∧ p.y < b.y + b.height

instance (p : Point) (b : Rectangle) : Decidable (strictInside p b) := by
  unfold strictInside
  infer_instance

/-- The routing predicate of child 0: the point is in quadrant 0's boundary. -/
def hitFirst0 (r0 : Rectangle) (p : Point) : Prop := _contains p r0

/-- The routing predicate of child 1: missed child 0, contained in child 1. -/
def hitFirst1 (r0 r1 : Rectangle) (p : Point) : Prop :=
  ¬ _contains p r0 ∧ _contains p r1

/-- The routing predicate of child 2: missed children 0 and 1, contained in child 2. -/
def hitFirst2 (r0 r1 r2 : Rectangle) (p : Point) : Prop :=
  ¬ _contains p r0 ∧ ¬ _contains p r1 ∧ _contains p r2

/-- The routing predicate of child 3: missed children 0, 1 and 2, contained in child 3. -/
def hitFirst3 (r0 r1 r2 r3 : Rectangle) (p : Point) : Prop :=
  ¬ _contains p r0 ∧ ¬ _contains p r1 ∧ ¬ _contains p r2 ∧ _contains p r3

instance (r0 : Rectangle) (p : Point) : Decidable (hitFirst0 r0 p) := by
  unfold hitFirst0; infer_instance

instance (r0 r1 : Rectangle) (p : Point) : Decidable (hitFirst1 r0 r1 p) := by
  unfold hitFirst1; infer_instance

instance (r0 r1 r2 : Rectangle) (p : Point) : Decidable (hitFirst2 r0 r1 r2 p) := by
  unfold hitFirst2; infer_instance

instance (r0 r1 r2 r3 : Rectangle) (p : Point) : Decidable (hitFirst3 r0 r1 r2 r3 p) := by
  unfold hitFirst3; infer_instance

/-- Every item of a node's list is inside a rectangle `b`. -/
def itemsIn {α : Type} [Position α] (b : Rectangle) (t : Quadtree α) : Prop :=
  ∀ i ∈ t.items, _contains (position i) b

/-- A well-formed child of a subdivided node with full bounds `b`: it is a
leaf, its bounds are the given quadrant rectangle, and all its items lie
inside `b`. -/
def childOk {α : Type} [Position α] (b r : Rectangle) (c : Quadtree α) : Prop :=
  c.children = none ∧ c.bounds = r ∧ itemsIn b c

/-- Invariant of every tree reachable through the public API (`with_options`
then a sequence of `put`s): the bounds are the construction bounds; a leaf
holds only items inside the bounds; a subdivided node has an empty list and
four leaf children sitting exactly on the four quadrants, all their items
inside the root bounds. -/
inductive ApiInv {α : Type} [Position α] (b : Rectangle) : Quadtree α → Prop where
  | leaf (x y w h : ℚ) (l : List α) (o : Options)
      (hb : (⟨x, y, w, h⟩ : Rectangle) = b)
      (hl : ∀ i ∈ l, _contains (position i) b) :
      ApiInv b (.leaf x y w h l o)
  | branch (x y w h : ℚ) (c0 c1 c2 c3 : Quadtree α) (o : Options)
      (hb : (⟨x, y, w, h⟩ : Rectangle) = b)
      (h0 : childOk b (quadrant0 b) c0)
      (h1 : childOk b (quadrant1 b) c1)
      (h2 : childOk b (quadrant2 b) c2)
      (h3 : childOk b (quadrant3 b) c3) :
      ApiInv b (.branch x y w h [] c0 c1 c2 c3 o)

/-! ## Basic facts about the embedded operations -/

theorem setItems_items {α : Type} (t : Quadtree α) (l : List α) :
    (t.setItems l).items = l := by
  cases t <;> rfl

theorem setItems_bounds {α : Type} (t : Quadtree α) (l : List α) :
    (t.setItems l).bounds = t.bounds := by
  cases t <;> rfl

theorem setItems_children {α : Type} (t : Quadtree α) (l : List α) :
    (t.setItems l).children = t.children := by
  cases t <;> rfl

theorem setItems_options {α : Type} (t : Quadtree α) (l : List α) :
    (t.setItems l).options = t.options := by
  cases t <;> rfl

theorem setItems_setItems {α : Type} (t : Quadtree α) (l₁ l₂ : List α) :
    (t.setItems l₁).setItems l₂ = t.setItems l₂ := by
  cases t <;> rfl

theorem setItems_self {α : Type} (t : Quadtree α) : t.setItems t.items = t := by
  cases t <;> rfl

theorem pushItem_bounds {α : Type} (t : Quadtree α) (i : α) :
    (t.pushItem i).bounds = t.bounds := by
  cases t <;> rfl

theorem pushItem_items {α : Type} (t : Quadtree α) (i : α) :
    (t.pushItem i).items = t.items ++ [i] := by
  cases t <;> rfl

theorem pushItem_children {α : Type} (t : Quadtree α) (i : α) :
    (t.pushItem i).children = t.children := by
  cases t <;> rfl

theorem contains_def {α : Type} [Position α] (t : Quadtree α) (i : α) :
    t.contains i ↔ _contains (position i) t.bounds :=
  Iff.rfl

/-- The drain loop, characterized declaratively: each child ends with its
previous items followed by exactly those drained items whose position it is
the first (in order 0,1,2,3) to contain, in the order they were drained. -/
theorem drainLoop_eq {α : Type} [Position α] :
    ∀ (l : List α) (c0 c1 c2 c3 : Quadtree α),
    drainLoop (c0, c1, c2, c3) l =
      (c0.setItems (c0.items ++ l.filter fun it => decide (hitFirst0 c0.bounds (position it))),
       c1.setItems (c1.items ++ l.filter fun it =>
          decide (hitFirst1 c0.bounds c1.bounds (position it))),
       c2.setItems (c2.items ++ l.filter fun it =>
          decide (hitFirst2 c0.bounds c1.bounds c2.bounds (position it))),
       c3.setItems (c3.items ++ l.filter fun it =>
          decide (hitFirst3 c0.bounds c1.bounds c2.bounds c3.bounds (position it)))) := by
  intro l
  induction l with
  | nil =>
      intro c0 c1 c2 c3
      simp [drainLoop, setItems_self]
  | cons it rest ih =>
      intro c0 c1 c2 c3
      by_cases h0 : _contains (position it) c0.bounds
      · have hr : routeFirst (c0, c1, c2, c3) it = (c0.pushItem it, c1, c2, c3) := by
          simp [routeFirst, Quadtree.contains, h0]
        simp only [drainLoop, hr, ih, pushItem_bounds, pushItem_items]
        simp [List.filter_cons, hitFirst0, hitFirst1, hitFirst2, hitFirst3, h0,
          setItems_setItems, Quadtree.pushItem]
      · by_cases h1 : _contains (position it) c1.bounds
        · have hr : routeFirst (c0, c1, c2, c3) it = (c0, c1.pushItem it, c2, c3) := by
            simp [routeFirst, Quadtree.contains, h0, h1]
          simp only [drainLoop, hr, ih, pushItem_bounds, pushItem_items]
          simp [List.filter_cons, hitFirst0, hitFirst1, hitFirst2, hitFirst3, h0, h1,
            setItems_setItems, Quadtree.pushItem]
        · by_cases h2 : _contains (position it) c2.bounds
          · have hr : routeFirst (c0, c1, c2, c3) it = (c0, c1, c2.pushItem it, c3) := by
              simp [routeFirst, Quadtree.contains, h0, h1, h2]
            simp only [drainLoop, hr, ih, pushItem_bounds, pushItem_items]
            simp [List.filter_cons, hitFirst0, hitFirst1, hitFirst2, hitFirst3, h0, h1, h2,
              setItems_setItems, Quadtree.pushItem]
          · by_cases h3 : _contains (position it) c3.bounds
            · have hr : routeFirst (c0, c1, c2, c3) it = (c0, c1, c2, c3.pushItem it) := by
                simp [routeFirst, Quadtree.contains, h0, h1, h2, h3]
              simp only [drainLoop, hr, ih, pushItem_bounds, pushItem_items]
              simp [List.filter_cons, hitFirst0, hitFirst1, hitFirst2, hitFirst3,
                h0, h1, h2, h3, setItems_setItems, Quadtree.pushItem]
            · have hr : routeFirst (c0, c1, c2, c3) it = (c0, c1, c2, c3) := by
                simp [routeFirst, Quadtree.contains, h0, h1, h2, h3]
              simp only [drainLoop, hr, ih]
              simp [List.filter_cons, hitFirst0, hitFirst1, hitFirst2, hitFirst3,
                h0, h1, h2, h3]

/-- `subdivide` produces exactly the four quadrant leaves, with inherited
`max_items`/`max_depth` and incremented depth. -/
theorem subdivide_eq {α : Type} (t : Quadtree α) :
    t.subdivide =
      (Quadtree.with_options (quadrant0 t.bounds)
          ⟨t.options.max_items, t.options.max_depth, t.options.depth + 1⟩,
       Quadtree.with_options (quadrant1 t.bounds)
          ⟨t.options.max_items, t.options.max_depth, t.options.depth + 1⟩,
       Quadtree.with_options (quadrant2 t.bounds)
          ⟨t.options.max_items, t.options.max_depth, t.options.depth + 1⟩,
       Quadtree.with_options (quadrant3 t.bounds)
          ⟨t.options.max_items, t.options.max_depth, t.options.depth + 1⟩) := by
  cases t <;> rfl

/-- A point inside a rectangle is inside at least one of its four quadrants. -/
theorem quadrant_cover (b : Rectangle) (p : Point) (h : _contains p b) :
    _contains p (quadrant0 b) ∨ _contains p (quadrant1 b) ∨
      _contains p (quadrant2 b) ∨ _contains p (quadrant3 b) := by
  obtain ⟨hx1, hx2, hy1, hy2⟩ := h
  simp only [_contains, quadrant0, quadrant1, quadrant2, quadrant3]
  rcases le_total p.x (b.x + b.width / 2) with hx | hx <;>
    rcases le_total p.y (b.y + b.height / 2) with hy | hy
  · exact Or.inl ⟨by linarith, by linarith, by linarith, by linarith⟩
  · exact Or.inr (Or.inr (Or.inr ⟨by linarith, by linarith, by linarith, by linarith⟩))
  · exact Or.inr (Or.inl ⟨by linarith, by linarith, by linarith, by linarith⟩)
  · exact Or.inr (Or.inr (Or.inl ⟨by linarith, by linarith, by linarith, by linarith⟩))

/-- A point inside any quadrant of a rectangle is inside the rectangle. -/
theorem quadrant_subset (b : Rectangle) (p : Point)
    (h : _contains p (quadrant0 b) ∨ _contains p (quadrant1 b) ∨
      _contains p (quadrant2 b) ∨ _contains p (quadrant3 b)) :
    _contains p b := by
  simp only [_contains, quadrant0, quadrant1, quadrant2, quadrant3] at h ⊢
  rcases h with ⟨h1, h2, h3, h4⟩ | ⟨h1, h2, h3, h4⟩ | ⟨h1, h2, h3, h4⟩ | ⟨h1, h2, h3, h4⟩ <;>
    exact ⟨by linarith, by linarith, by linarith, by linarith⟩

/-- A rectangle of positive width and height intersects itself. -/
theorem intersects_self (b : Rectangle) (hw : 0 < b.width) (hh : 0 < b.height) :
    intersects b b := by
  simp only [intersects]
  refine ⟨by linarith, by linarith, by linarith, by linarith⟩

/-- A rectangle containing a point strictly inside another rectangle
intersects that rectangle. -/
theorem intersects_of_strictInside (p : Point) (b R : Rectangle)
    (hin : strictInside p b) (hR : _contains p R) : intersects R b := by
  obtain ⟨a1, a2, a3, a4⟩ := hin
  obtain ⟨b1, b2, b3, b4⟩ := hR
  simp only [intersects]
  refine ⟨by linarith, by linarith, by linarith, by linarith⟩

/-- The accumulating loop of the leaf case of `query` is a filter. -/
theorem foldl_query_filter {α : Type} [Position α] (range : Rectangle) :
    ∀ (l acc : List α),
    l.foldl (fun acc it => if _contains (position it) range then acc ++ [it] else acc) acc =
      acc ++ l.filter (fun it => decide (_contains (position it) range)) := by
  intro l
  induction l with
  | nil => intro acc; simp
  | cons it rest ih =>
      intro acc
      by_cases h : _contains (position it) range
      · simp [List.foldl_cons, h, ih, List.filter_cons]
      · simp [List.foldl_cons, h, ih, List.filter_cons]

/-- `query` on a leaf keeps exactly the items whose position the range
contains, in insertion order. -/
theorem query_leaf_eq {α : Type} [Position α] (x y w h : ℚ) (l : List α)
    (o : Options) (range : Rectangle) :
    (Quadtree.leaf x y w h l o).query range =
      l.filter (fun it => decide (_contains (position it) range)) := by
  simp [Quadtree.query, foldl_query_filter]

/-- `query` on a subdivided node: concatenation of the children's results
when the range intersects the node's bounds, nothing otherwise. -/
theorem query_branch_eq {α : Type} [Position α] (x y w h : ℚ) (l : List α)
    (c0 c1 c2 c3 : Quadtree α) (o : Options) (range : Rectangle) :
    (Quadtree.branch x y w h l c0 c1 c2 c3 o).query range =
      if intersects range (⟨x, y, w, h⟩ : Rectangle) then
        c0.query range ++ c1.query range ++ c2.query range ++ c3.query range
      else [] := rfl

/-- `put` of an item outside the node's boundary returns the tree unchanged. -/
theorem put_not_contains {α : Type} [Position α] (t : Quadtree α) (i : α)
    (h : ¬ t.contains i) : t.put i = t := by
  cases t <;> simp [Quadtree.put, h]

/-- `put` on an in-bounds, under-capacity, under-depth leaf appends. -/
theorem put_leaf_append {α : Type} [Position α] (x y w h : ℚ) (l : List α)
    (o : Options) (i : α) (hc : (Quadtree.leaf x y w h l o).contains i)
    (hcap : l.length < o.max_items ∧ o.depth < o.max_depth) :
    (Quadtree.leaf x y w h l o).put i = Quadtree.leaf x y w h (l ++ [i]) o := by
  simp [Quadtree.put, hc, hcap]

/-- `put` on an in-bounds leaf at capacity (or at depth): push, subdivide,
drain the whole list from the end into the children, install the children. -/
theorem put_leaf_overflow {α : Type} [Position α] (x y w h : ℚ) (l : List α)
    (o : Options) (i : α) (hc : (Quadtree.leaf x y w h l o).contains i)
    (hcap : ¬ (l.length < o.max_items ∧ o.depth < o.max_depth)) :
    (Quadtree.leaf x y w h l o).put i =
      (Quadtree.leaf x y w h ([] : List α) o).setChildren
        (drainLoop (Quadtree.leaf x y w h (l ++ [i]) o).subdivide (l ++ [i]).reverse) := by
  simp [Quadtree.put, hc, hcap]

/-- `put` on a node with children routes to the first containing child. -/
theorem put_branch_eq {α : Type} [Position α] (x y w h : ℚ) (l : List α)
    (c0 c1 c2 c3 : Quadtree α) (o : Options) (i : α)
    (hc : (Quadtree.branch x y w h l c0 c1 c2 c3 o).contains i) :
    (Quadtree.branch x y w h l c0 c1 c2 c3 o).put i =
      (Quadtree.branch x y w h l c0 c1 c2 c3 o).setChildren
        (routeFirst (c0, c1, c2, c3) i) := by
  simp [Quadtree.put, hc]

/-! ## The reachable-state invariant -/

theorem with_options_bounds {α : Type} (r : Rectangle) (o : Options) :
    (Quadtree.with_options r o : Quadtree α).bounds = r := rfl

theorem with_options_children {α : Type} (r : Rectangle) (o : Options) :
    (Quadtree.with_options r o : Quadtree α).children = none := rfl

theorem with_options_items {α : Type} (r : Rectangle) (o : Options) :
    (Quadtree.with_options r o : Quadtree α).items = [] := rfl

theorem bounds_of_inv {α : Type} [Position α] {b : Rectangle} {t : Quadtree α}
    (h : ApiInv b t) : t.bounds = b := by
  cases h with
  | leaf x y w hh l o hb hl => exact hb
  | branch x y w hh c0 c1 c2 c3 o hb h0 h1 h2 h3 => exact hb

theorem allItems_of_no_children {α : Type} (t : Quadtree α)
    (h : t.children = none) : allItems t = t.items := by
  cases t with
  | leaf x y w hh l o => rfl
  | branch x y w hh l c0 c1 c2 c3 o => simp [Quadtree.children] at h

theorem query_of_no_children {α : Type} [Position α] (t : Quadtree α)
    (h : t.children = none) (range : Rectangle) :
    t.query range = t.items.filter (fun it => decide (_contains (position it) range)) := by
  cases t with
  | leaf x y w hh l o => exact query_leaf_eq x y w hh l o range
  | branch x y w hh l c0 c1 c2 c3 o => simp [Quadtree.children] at h

theorem pushItem_childOk {α : Type} [Position α] (b r : Rectangle) (c : Quadtree α)
    (i : α) (h : childOk b r c) (hib : _contains (position i) b) :
    childOk b r (c.pushItem i) := by
  obtain ⟨h1, h2, h3⟩ := h
  refine ⟨by rw [pushItem_children]; exact h1, by rw [pushItem_bounds]; exact h2, ?_⟩
  intro j hj
  rw [pushItem_items] at hj
  rcases List.mem_append.mp hj with hj | hj
  · exact h3 j hj
  · rw [List.mem_singleton] at hj
    subst hj
    exact hib

theorem setItems_childOk {α : Type} [Position α] (b r : Rectangle) (c : Quadtree α)
    (l : List α) (h : childOk b r c) (hl : ∀ j ∈ l, _contains (position j) b) :
    childOk b r (c.setItems l) := by
  obtain ⟨h1, h2, h3⟩ := h
  exact ⟨by rw [setItems_children]; exact h1, by rw [setItems_bounds]; exact h2, by
    intro j hj
    rw [setItems_items] at hj
    exact hl j hj⟩

/-- One `put` preserves the reachable-state invariant. -/
theorem put_inv {α : Type} [Position α] (b : Rectangle) (t : Quadtree α) (i : α)
    (hInv : ApiInv b t) : ApiInv b (t.put i) := by
  by_cases hc : t.contains i
  case neg => rw [put_not_contains t i hc]; exact hInv
  case pos =>
  have hib : _contains (position i) b := by
    rw [contains_def, bounds_of_inv hInv] at hc
    exact hc
  cases hInv with
  | leaf x y w hh l o hb hl =>
      by_cases hcap : l.length < o.max_items ∧ o.depth < o.max_depth
      · rw [put_leaf_append x y w hh l o i hc hcap]
        refine ApiInv.leaf x y w hh (l ++ [i]) o hb ?_
        intro j hj
        rcases List.mem_append.mp hj with hj | hj
        · exact hl j hj
        · rw [List.mem_singleton] at hj; subst hj; exact hib
      · rw [put_leaf_overflow x y w hh l o i hc hcap]
        have hbnds : (Quadtree.leaf x y w hh (l ++ [i]) o : Quadtree α).bounds = b := hb
        rw [subdivide_eq, hbnds]
        rw [drainLoop_eq]
        simp only [with_options_bounds, with_options_items, List.nil_append]
        have hmem : ∀ j ∈ (l ++ [i]).reverse, _contains (position j) b := by
          intro j hj
          rw [List.mem_reverse] at hj
          rcases List.mem_append.mp hj with hj | hj
          · exact hl j hj
          · rw [List.mem_singleton] at hj; subst hj; exact hib
        refine ApiInv.branch x y w hh _ _ _ _ o hb ?_ ?_ ?_ ?_ <;>
          refine setItems_childOk b _ _ _ ⟨with_options_children _ _, with_options_bounds _ _, ?_⟩ ?_
        · intro j hj; simp [Quadtree.with_options, Quadtree.items] at hj
        · intro j hj; exact hmem j (List.mem_of_mem_filter hj)
        · intro j hj; simp [Quadtree.with_options, Quadtree.items] at hj
        · intro j hj; exact hmem j (List.mem_of_mem_filter hj)
        · intro j hj; simp [Quadtree.with_options, Quadtree.items] at hj
        · intro j hj; exact hmem j (List.mem_of_mem_filter hj)
        · intro j hj; simp [Quadtree.with_options, Quadtree.items] at hj
        · intro j hj; exact hmem j (List.mem_of_mem_filter hj)
  | branch x y w hh c0 c1 c2 c3 o hb h0 h1 h2 h3 =>
      rw [put_branch_eq x y w hh [] c0 c1 c2 c3 o i hc]
      rw [Quadtree.setChildren]
      unfold routeFirst
      by_cases k0 : c0.contains i
      · simp only [k0, if_true]
        exact ApiInv.branch x y w hh _ _ _ _ o hb (pushItem_childOk b _ c0 i h0 hib) h1 h2 h3
      · simp only [k0, if_false]
        by_cases k1 : c1.contains i
        · simp only [k1, if_true]
          exact ApiInv.branch x y w hh _ _ _ _ o hb h0 (pushItem_childOk b _ c1 i h1 hib) h2 h3
        · simp only [k1, if_false]
          by_cases k2 : c2.contains i
          · simp only [k2, if_true]
            exact ApiInv.branch x y w hh _ _ _ _ o hb h0 h1 (pushItem_childOk b _ c2 i h2 hib) h3
          · simp only [k2, if_false]
            by_cases k3 : c3.contains i
            · simp only [k3, if_true]
              exact ApiInv.branch x y w hh _ _ _ _ o hb h0 h1 h2 (pushItem_childOk b _ c3 i h3 hib)
            · simp only [k3, if_false]
              exact ApiInv.branch x y w hh c0 c1 c2 c3 o hb h0 h1 h2 h3

/-- Folding `put` over any item list preserves the invariant. -/
theorem foldl_put_inv {α : Type} [Position α] (b : Rectangle) :
    ∀ (pts : List α) (t : Quadtree α), ApiInv b t → ApiInv b (pts.foldl Quadtree.put t) := by
  intro pts
  induction pts with
  | nil => intro t h; exact h
  | cons p rest ih => intro t h; exact ih (t.put p) (put_inv b t p h)

/-- Every tree built through the public API satisfies the invariant. -/
theorem build_inv {α : Type} [Position α] (b : Rectangle) (opts : Options)
    (pts : List α) : ApiInv b (build b opts pts) := by
  refine foldl_put_inv b pts (Quadtree.with_options b opts) ?_
  refine ApiInv.leaf b.x b.y b.width b.height [] opts rfl ?_
  intro j hj
  simp at hj

/-! ## Items are retained by `put` (exact arithmetic) -/

/-- An item contained in one of four rectangles lands in exactly one of the
four first-match filters. -/
theorem mem_filter_first {α : Type} [Position α] (r0 r1 r2 r3 : Rectangle) (i : α)
    (l : List α)
    (hcov : _contains (position i) r0 ∨ _contains (position i) r1 ∨
      _contains (position i) r2 ∨ _contains (position i) r3)
    (hmem : i ∈ l) :
    i ∈ l.filter (fun it => decide (hitFirst0 r0 (position it))) ∨
      i ∈ l.filter (fun it => decide (hitFirst1 r0 r1 (position it))) ∨
      i ∈ l.filter (fun it => decide (hitFirst2 r0 r1 r2 (position it))) ∨
      i ∈ l.filter (fun it => decide (hitFirst3 r0 r1 r2 r3 (position it))) := by
  by_cases q0 : _contains (position i) r0
  · exact Or.inl (List.mem_filter.mpr ⟨hmem, by simp [hitFirst0, q0]⟩)
  · by_cases q1 : _contains (position i) r1
    · exact Or.inr (Or.inl (List.mem_filter.mpr ⟨hmem, by simp [hitFirst1, q0, q1]⟩))
    · by_cases q2 : _contains (position i) r2
      · exact Or.inr (Or.inr (Or.inl (List.mem_filter.mpr
          ⟨hmem, by simp [hitFirst2, q0, q1, q2]⟩)))
      · have q3 : _contains (position i) r3 := by tauto
        exact Or.inr (Or.inr (Or.inr (List.mem_filter.mpr
          ⟨hmem, by simp [hitFirst3, q0, q1, q2, q3]⟩)))

theorem pushItem_allItems_mono {α : Type} (t : Quadtree α) (i q : α)
    (hq : q ∈ allItems t) : q ∈ allItems (t.pushItem i) := by
  cases t with
  | leaf x y w hh l o =>
      simp only [allItems, Quadtree.pushItem, Quadtree.items, Quadtree.setItems] at hq ⊢
      exact List.mem_append_left _ hq
  | branch x y w hh l c0 c1 c2 c3 o =>
      simp only [allItems, Quadtree.pushItem, Quadtree.items, Quadtree.setItems,
        List.mem_append] at hq ⊢
      tauto

theorem pushItem_allItems_self {α : Type} (t : Quadtree α) (i : α) :
    i ∈ allItems (t.pushItem i) := by
  cases t with
  | leaf x y w hh l o =>
      simp [allItems, Quadtree.pushItem, Quadtree.items, Quadtree.setItems]
  | branch x y w hh l c0 c1 c2 c3 o =>
      simp [allItems, Quadtree.pushItem, Quadtree.items, Quadtree.setItems]

theorem routeFirst_allItems_mono {α : Type} [Position α] (cs : Children α) (i q : α)
    (hq : q ∈ allItems cs.1 ∨ q ∈ allItems cs.2.1 ∨
      q ∈ allItems cs.2.2.1 ∨ q ∈ allItems cs.2.2.2) :
    q ∈ allItems (routeFirst cs i).1 ∨ q ∈ allItems (routeFirst cs i).2.1 ∨
      q ∈ allItems (routeFirst cs i).2.2.1 ∨ q ∈ allItems (routeFirst cs i).2.2.2 := by
  unfold routeFirst
  by_cases k0 : cs.1.contains i
  · simp only [k0, if_true]
    rcases hq with h | h | h | h
    · exact Or.inl (pushItem_allItems_mono cs.1 i q h)
    · exact Or.inr (Or.inl h)
    · exact Or.inr (Or.inr (Or.inl h))
    · exact Or.inr (Or.inr (Or.inr h))
  · simp only [k0, if_false]
    by_cases k1 : cs.2.1.contains i
    · simp only [k1, if_true]
      rcases hq with h | h | h | h
      · exact Or.inl h
      · exact Or.inr (Or.inl (pushItem_allItems_mono cs.2.1 i q h))
      · exact Or.inr (Or.inr (Or.inl h))
      · exact Or.inr (Or.inr (Or.inr h))
    · simp only [k1, if_false]
      by_cases k2 : cs.2.2.1.contains i
      · simp only [k2, if_true]
        rcases hq with h | h | h | h
        · exact Or.inl h
        · exact Or.inr (Or.inl h)
        · exact Or.inr (Or.inr (Or.inl (pushItem_allItems_mono cs.2.2.1 i q h)))
        · exact Or.inr (Or.inr (Or.inr h))
      · simp only [k2, if_false]
        by_cases k3 : cs.2.2.2.contains i
        · simp only [k3, if_true]
          rcases hq with h | h | h | h
          · exact Or.inl h
          · exact Or.inr (Or.inl h)
          · exact Or.inr (Or.inr (Or.inl h))
          · exact Or.inr (Or.inr (Or.inr (pushItem_allItems_mono cs.2.2.2 i q h)))
        · simp only [k3, if_false]
          exact hq

/-- The inserted item itself ends up stored in the tree whenever its
position is inside the node's bounds. -/
theorem mem_allItems_put {α : Type} [Position α] (b : Rectangle) (t : Quadtree α)
    (i : α) (hInv : ApiInv b t) (hc : t.contains i) : i ∈ allItems (t.put i) := by
  have hib : _contains (position i) b := by
    rw [contains_def, bounds_of_inv hInv] at hc
    exact hc
  cases hInv with
  | leaf x y w hh l o hb hl =>
      by_cases hcap : l.length < o.max_items ∧ o.depth < o.max_depth
      · rw [put_leaf_append x y w hh l o i hc hcap]
        simp [allItems]
      · rw [put_leaf_overflow x y w hh l o i hc hcap]
        have hbnds : (Quadtree.leaf x y w hh (l ++ [i]) o : Quadtree α).bounds = b := hb
        rw [subdivide_eq, hbnds, drainLoop_eq]
        simp only [with_options_bounds, with_options_items, List.nil_append]
        have hm : i ∈ (l ++ [i]).reverse := by simp
        rcases mem_filter_first (quadrant0 b) (quadrant1 b) (quadrant2 b) (quadrant3 b)
            i ((l ++ [i]).reverse) (quadrant_cover b (position i) hib) hm with
          hk | hk | hk | hk <;>
          · simp only [Quadtree.setChildren, Quadtree.with_options, Quadtree.setItems,
              allItems, List.mem_append, List.not_mem_nil, false_or]
            tauto
  | branch x y w hh c0 c1 c2 c3 o hb h0 h1 h2 h3 =>
      rw [put_branch_eq x y w hh [] c0 c1 c2 c3 o i hc]
      rw [Quadtree.setChildren]
      unfold routeFirst
      by_cases k0 : c0.contains i
      · simp only [k0, if_true]
        simp only [allItems, List.mem_append]
        have := pushItem_allItems_self c0 i
        tauto
      · simp only [k0, if_false]
        by_cases k1 : c1.contains i
        · simp only [k1, if_true]
          simp only [allItems, List.mem_append]
          have := pushItem_allItems_self c1 i
          tauto
        · simp only [k1, if_false]
          by_cases k2 : c2.contains i
          · simp only [k2, if_true]
            simp only [allItems, List.mem_append]
            have := pushItem_allItems_self c2 i
            tauto
          · simp only [k2, if_false]
            by_cases k3 : c3.contains i
            · simp only [k3, if_true]
              simp only [allItems, List.mem_append]
              have := pushItem_allItems_self c3 i
              tauto
            · exfalso
              rcases quadrant_cover b (position i) hib with hq | hq | hq | hq
              · exact k0 ((contains_def c0 i).mpr (by rw [h0.2.1]; exact hq))
              · exact k1 ((contains_def c1 i).mpr (by rw [h1.2.1]; exact hq))
              · exact k2 ((contains_def c2 i).mpr (by rw [h2.2.1]; exact hq))
              · exact k3 ((contains_def c3 i).mpr (by rw [h3.2.1]; exact hq))

/-- Every item already stored stays stored across a further `put`. -/
theorem allItems_put_mono {α : Type} [Position α] (b : Rectangle) (t : Quadtree α)
    (i q : α) (hInv : ApiInv b t) (hq : q ∈ allItems t) : q ∈ allItems (t.put i) := by
  by_cases hc : t.contains i
  case neg => rw [put_not_contains t i hc]; exact hq
  case pos =>
  cases hInv with
  | leaf x y w hh l o hb hl =>
      by_cases hcap : l.length < o.max_items ∧ o.depth < o.max_depth
      · rw [put_leaf_append x y w hh l o i hc hcap]
        simp only [allItems] at hq ⊢
        exact List.mem_append_left _ hq
      · rw [put_leaf_overflow x y w hh l o i hc hcap]
        have hbnds : (Quadtree.leaf x y w hh (l ++ [i]) o : Quadtree α).bounds = b := hb
        rw [subdivide_eq, hbnds, drainLoop_eq]
        simp only [with_options_bounds, with_options_items, List.nil_append]
        simp only [allItems] at hq
        have hqb : _contains (position q) b := hl q hq
        have hm : q ∈ (l ++ [i]).reverse := by
          rw [List.mem_reverse]
          exact List.mem_append_left _ hq
        rcases mem_filter_first (quadrant0 b) (quadrant1 b) (quadrant2 b) (quadrant3 b)
            q ((l ++ [i]).reverse) (quadrant_cover b (position q) hqb) hm with
          hk | hk | hk | hk <;>
          · simp only [Quadtree.setChildren, Quadtree.with_options, Quadtree.setItems,
              allItems, List.mem_append, List.not_mem_nil, false_or]
            tauto
  | branch x y w hh c0 c1 c2 c3 o hb h0 h1 h2 h3 =>
      rw [put_branch_eq x y w hh [] c0 c1 c2 c3 o i hc]
      rw [Quadtree.setChildren]
      simp only [allItems, List.mem_append, List.not_mem_nil, false_or] at hq
      have hq4 : q ∈ allItems c0 ∨ q ∈ allItems c1 ∨ q ∈ allItems c2 ∨ q ∈ allItems c3 := by
        tauto
      have := routeFirst_allItems_mono (c0, c1, c2, c3) i q hq4
      simp only [allItems, List.mem_append, List.not_mem_nil, false_or]
      tauto

theorem allItems_foldl_mono {α : Type} [Position α] (b : Rectangle) :
    ∀ (pts : List α) (t : Quadtree α) (q : α), ApiInv b t → q ∈ allItems t →
    q ∈ allItems (pts.foldl Quadtree.put t) := by
  intro pts
  induction pts with
  | nil => intro t q _ hq; exact hq
  | cons p rest ih =>
      intro t q hInv hq
      exact ih (t.put p) q (put_inv b t p hInv) (allItems_put_mono b t p q hInv hq)

/-- Every in-bounds item of the insertion sequence is stored in the built tree. -/
theorem mem_allItems_foldl {α : Type} [Position α] (b : Rectangle) :
    ∀ (pts : List α) (t : Quadtree α) (i : α), ApiInv b t → i ∈ pts →
    _contains (position i) b → i ∈ allItems (pts.foldl Quadtree.put t) := by
  intro pts
  induction pts with
  | nil => intro t i _ hi _; simp at hi
  | cons p rest ih =>
      intro t i hInv hi hib
      rcases List.mem_cons.mp hi with hi | hi
      · subst hi
        refine allItems_foldl_mono b rest (t.put i) i (put_inv b t i hInv) ?_
        refine mem_allItems_put b t i hInv ?_
        rw [contains_def, bounds_of_inv hInv]
        exact hib
      · exact ih (t.put p) i (put_inv b t p hInv) hi hib

/-- Every item stored in a reachable tree is inside the root bounds. -/
theorem allItems_contained {α : Type} [Position α] (b : Rectangle) (t : Quadtree α)
    (hInv : ApiInv b t) : ∀ q ∈ allItems t, _contains (position q) b := by
  cases hInv with
  | leaf x y w hh l o hb hl => exact hl
  | branch x y w hh c0 c1 c2 c3 o hb h0 h1 h2 h3 =>
      intro q hq
      simp only [allItems, List.mem_append, List.not_mem_nil, false_or] at hq
      rw [allItems_of_no_children c0 h0.1, allItems_of_no_children c1 h1.1,
        allItems_of_no_children c2 h2.1, allItems_of_no_children c3 h3.1] at hq
      rcases hq with (hq | hq) | hq
      · rcases hq with hq | hq
        · exact h0.2.2 q hq
        · exact h1.2.2 q hq
      · exact h2.2.2 q hq
      · exact h3.2.2 q hq

/-- On a reachable tree, `query` finds every stored item whose position the
range contains, provided the range intersects the root bounds. -/
theorem query_complete_of_inv {α : Type} [Position α] (b R : Rectangle)
    (t : Quadtree α) (hInv : ApiInv b t) (q : α) (hq : q ∈ allItems t)
    (hqR : _contains (position q) R) (hint : intersects R b) : q ∈ t.query R := by
  cases hInv with
  | leaf x y w hh l o hb hl =>
      rw [query_leaf_eq]
      simp only [allItems] at hq
      exact List.mem_filter.mpr ⟨hq, by simp [hqR]⟩
  | branch x y w hh c0 c1 c2 c3 o hb h0 h1 h2 h3 =>
      rw [query_branch_eq, hb, if_pos hint]
      simp only [allItems, List.mem_append, List.not_mem_nil, false_or] at hq
      rw [allItems_of_no_children c0 h0.1, allItems_of_no_children c1 h1.1,
        allItems_of_no_children c2 h2.1, allItems_of_no_children c3 h3.1] at hq
      rw [query_of_no_children c0 h0.1, query_of_no_children c1 h1.1,
        query_of_no_children c2 h2.1, query_of_no_children c3 h3.1]
      simp only [List.mem_append, List.mem_filter]
      have hd : decide (_contains (position q) R) = true := by simp [hqR]
      tauto

/-! ## The claims -/

/-- C9: for every tree state and every item whose position does not satisfy
the node's boundary containment predicate, `put` is a no-op returning the
tree completely unchanged (no lists, children or options of any node are
modified), and no error is raised. -/
theorem put_out_of_bounds_noop {α : Type} [Position α] (t : Quadtree α) (i : α)
    (h : ¬ t.contains i) : t.put i = t :=
  put_not_contains t i h

/-- Witness for C9: inserting a point at (-10, -10) into a root over
(0, 0, 100, 100) leaves the tree unchanged. -/
theorem put_out_of_bounds_noop_spot :
    (Quadtree.leaf 0 0 100 100 [] ⟨20, 3, 0⟩ : Quadtree (Item Nat)).put
        ⟨⟨-10, -10⟩, 7⟩ =
      Quadtree.leaf 0 0 100 100 [] ⟨20, 3, 0⟩ :=
  put_out_of_bounds_noop (Quadtree.leaf 0 0 100 100 [] ⟨20, 3, 0⟩)
    (⟨⟨-10, -10⟩, 7⟩ : Item Nat)
    (by norm_num [Quadtree.contains, _contains, Quadtree.bounds, position, Item.point])

/-- C10: `intersects` holds exactly when the four strict inequalities hold;
rectangles that merely touch along an edge or corner (zero-area overlap) do
not intersect: `(5,5,50,50)` does not intersect `(55,55,50,50)`, a pair of
edge-touching rectangles does not intersect, and a rectangle intersects
itself when its area is positive, e.g. `(5,5,50,50)`. -/
theorem intersects_strict_iff :
    (∀ r b : Rectangle, intersects r b ↔
      (r.x < b.x + b.width ∧ r.x + r.width > b.x ∧
        r.y < b.y + b.height ∧ r.y + r.height > b.y)) ∧
    (intersects ⟨5, 5, 50, 50⟩ ⟨55, 55, 50, 50⟩ ↔ False) ∧
    (intersects ⟨5, 5, 50, 50⟩ ⟨5, 5, 50, 50⟩ ↔ True) ∧
    (intersects ⟨0, 0, 10, 10⟩ ⟨10, 0, 10, 10⟩ ↔ False) := by
  refine ⟨fun r b => Iff.rfl, by norm_num [intersects], by norm_num [intersects],
    by norm_num [intersects]⟩

/-- C7: a node with children answers `query` by recursing into all four
children and concatenating their results in quadrant order when its own
full bounds intersect the range, and answers nothing otherwise; a leaf
answers with exactly its items whose position the range contains
(inclusively), in insertion order. -/
theorem query_shape {α : Type} [Position α] (t : Quadtree α) (range : Rectangle) :
    (∀ c0 c1 c2 c3 : Quadtree α, t.children = some (c0, c1, c2, c3) →
      t.query range =
        if intersects range t.bounds then
          c0.query range ++ c1.query range ++ c2.query range ++ c3.query range
        else []) ∧
    (t.children = none →
      t.query range = t.items.filter (fun it => decide (_contains (position it) range))) := by
  cases t with
  | leaf x y w hh l o =>
      constructor
      · intro c0 c1 c2 c3 hch
        simp [Quadtree.children] at hch
      · intro _
        exact query_leaf_eq x y w hh l o range
  | branch x y w hh l c0 c1 c2 c3 o =>
      constructor
      · intro d0 d1 d2 d3 hch
        simp only [Quadtree.children, Option.some.injEq, Prod.mk.injEq] at hch
        obtain ⟨h0, h1, h2, h3⟩ := hch
        subst h0; subst h1; subst h2; subst h3
        exact query_branch_eq x y w hh l _ _ _ _ o range
      · intro hch
        simp [Quadtree.children] at hch

/-- Witness for C7: a leaf query filters its items against the range; a
subdivided node concatenates its children's results in quadrant order. -/
theorem query_shape_spot :
    (Quadtree.leaf 0 0 4 4 [(⟨⟨1, 1⟩, 1⟩ : Item Nat), ⟨⟨3, 3⟩, 2⟩] ⟨20, 3, 0⟩).query
        ⟨0, 0, 2, 2⟩ = [⟨⟨1, 1⟩, 1⟩] ∧
    (Quadtree.branch 0 0 4 4 []
        (Quadtree.leaf 0 0 2 2 [(⟨⟨1, 1⟩, 1⟩ : Item Nat)] ⟨1, 3, 1⟩)
        (Quadtree.leaf 2 0 2 2 [] ⟨1, 3, 1⟩)
        (Quadtree.leaf 2 2 2 2 [⟨⟨3, 3⟩, 2⟩] ⟨1, 3, 1⟩)
        (Quadtree.leaf 0 2 2 2 [] ⟨1, 3, 1⟩) ⟨1, 3, 0⟩).query ⟨0, 0, 4, 4⟩ =
      [⟨⟨1, 1⟩, 1⟩, ⟨⟨3, 3⟩, 2⟩] := by
  constructor
  · rw [(query_shape (Quadtree.leaf 0 0 4 4 [(⟨⟨1, 1⟩, 1⟩ : Item Nat), ⟨⟨3, 3⟩, 2⟩]
      ⟨20, 3, 0⟩) ⟨0, 0, 2, 2⟩).2 rfl]
    norm_num [Quadtree.items, List.filter, _contains, position, Item.point]
  · rw [(query_shape (Quadtree.branch 0 0 4 4 []
        (Quadtree.leaf 0 0 2 2 [(⟨⟨1, 1⟩, 1⟩ : Item Nat)] ⟨1, 3, 1⟩)
        (Quadtree.leaf 2 0 2 2 [] ⟨1, 3, 1⟩)
        (Quadtree.leaf 2 2 2 2 [⟨⟨3, 3⟩, 2⟩] ⟨1, 3, 1⟩)
        (Quadtree.leaf 0 2 2 2 [] ⟨1, 3, 1⟩) ⟨1, 3, 0⟩) ⟨0, 0, 4, 4⟩).1 _ _ _ _ rfl]
    rw [if_pos (by norm_num [intersects, Quadtree.bounds])]
    rw [query_leaf_eq, query_leaf_eq, query_leaf_eq, query_leaf_eq]
    norm_num [List.filter, _contains, position, Item.point]

/-- C8: `subdivide` creates exactly four children, in the fixed order
top-left, top-right, bottom-right, bottom-left, each at the stated origin
and of half the parent's width and height, inheriting `max_items` and
`max_depth` with depth one more than the parent's; the four quadrants
exactly partition the parent's bounds: they cover it, and their interiors
are pairwise disjoint. -/
theorem subdivide_partitions {α : Type} (t : Quadtree α) :
    (t.subdivide =
      (Quadtree.with_options (quadrant0 t.bounds)
          ⟨t.options.max_items, t.options.max_depth, t.options.depth + 1⟩,
       Quadtree.with_options (quadrant1 t.bounds)
          ⟨t.options.max_items, t.options.max_depth, t.options.depth + 1⟩,
       Quadtree.with_options (quadrant2 t.bounds)
          ⟨t.options.max_items, t.options.max_depth, t.options.depth + 1⟩,
       Quadtree.with_options (quadrant3 t.bounds)
          ⟨t.options.max_items, t.options.max_depth, t.options.depth + 1⟩)) ∧
    (quadrant0 t.bounds =
      ⟨t.bounds.x, t.bounds.y, t.bounds.width / 2, t.bounds.height / 2⟩) ∧
    (quadrant1 t.bounds =
      ⟨t.bounds.x + t.bounds.width / 2, t.bounds.y,
        t.bounds.width / 2, t.bounds.height / 2⟩) ∧
    (quadrant2 t.bounds =
      ⟨t.bounds.x + t.bounds.width / 2, t.bounds.y + t.bounds.height / 2,
        t.bounds.width / 2, t.bounds.height / 2⟩) ∧
    (quadrant3 t.bounds =
      ⟨t.bounds.x, t.bounds.y + t.bounds.height / 2,
        t.bounds.width / 2, t.bounds.height / 2⟩) ∧
    (∀ p : Point, _contains p t.bounds ↔
      (_contains p (quadrant0 t.bounds) ∨ _contains p (quadrant1 t.bounds) ∨
        _contains p (quadrant2 t.bounds) ∨ _contains p (quadrant3 t.bounds))) ∧
    (∀ p : Point, ¬ (strictInside p (quadrant0 t.bounds) ∧ strictInside p (quadrant1 t.bounds))) ∧
    (∀ p : Point, ¬ (strictInside p (quadrant0 t.bounds) ∧ strictInside p (quadrant2 t.bounds))) ∧
    (∀ p : Point, ¬ (strictInside p (quadrant0 t.bounds) ∧ strictInside p (quadrant3 t.bounds))) ∧
    (∀ p : Point, ¬ (strictInside p (quadrant1 t.bounds) ∧ strictInside p (quadrant2 t.bounds))) ∧
    (∀ p : Point, ¬ (strictInside p (quadrant1 t.bounds) ∧ strictInside p (quadrant3 t.bounds))) ∧
    (∀ p : Point, ¬ (strictInside p (quadrant2 t.bounds) ∧ strictInside p (quadrant3 t.bounds))) := by
  refine ⟨subdivide_eq t, rfl, rfl, rfl, rfl,
    fun p => ⟨quadrant_cover t.bounds p, quadrant_subset t.bounds p⟩, ?_, ?_, ?_, ?_, ?_, ?_⟩ <;>
    · intro p hp
      simp only [strictInside, quadrant0, quadrant1, quadrant2, quadrant3] at hp
      obtain ⟨⟨a1, a2, a3, a4⟩, b1, b2, b3, b4⟩ := hp
      linarith

/-- Witness for C8: subdividing a node over (0, 0, 100, 100) with the
default options yields the four expected depth-1 quadrant leaves. -/
theorem subdivide_partitions_spot :
    (Quadtree.leaf 0 0 100 100 ([] : List (Item Nat)) ⟨20, 3, 0⟩).subdivide =
      (Quadtree.leaf 0 0 50 50 [] ⟨20, 3, 1⟩,
       Quadtree.leaf 50 0 50 50 [] ⟨20, 3, 1⟩,
       Quadtree.leaf 50 50 50 50 [] ⟨20, 3, 1⟩,
       Quadtree.leaf 0 50 50 50 [] ⟨20, 3, 1⟩) := by
  rw [(subdivide_partitions (Quadtree.leaf 0 0 100 100 ([] : List (Item Nat)) ⟨20, 3, 0⟩)).1]
  norm_num [Quadtree.with_options, quadrant0, quadrant1, quadrant2, quadrant3,
    Quadtree.bounds, Quadtree.options]

/-- Witness for C10: the characterization applied to the overlapping pair
from the crate's own test suite. -/
theorem intersects_strict_iff_spot :
    intersects ⟨5, 5, 50, 50⟩ ⟨20, 10, 10, 10⟩ :=
  (intersects_strict_iff.1 ⟨5, 5, 50, 50⟩ ⟨20, 10, 10, 10⟩).mpr (by norm_num)

/-- C1 (evaluation of the code at the failing input): a root constructed at
`depth == max_depth` with plenty of spare capacity does not keep absorbing
items in its own list: the very first in-bounds `put` subdivides it, so the
claimed depth ceiling does not hold in the code. -/
theorem put_at_max_depth_subdivides :
    (Quadtree.with_options ⟨0, 0, 100, 100⟩ ⟨20, 0, 0⟩ : Quadtree (Item Nat)).put
        ⟨⟨10, 10⟩, 1⟩ =
      Quadtree.branch 0 0 100 100 []
        (Quadtree.leaf 0 0 50 50 [⟨⟨10, 10⟩, 1⟩] ⟨20, 0, 1⟩)
        (Quadtree.leaf 50 0 50 50 [] ⟨20, 0, 1⟩)
        (Quadtree.leaf 50 50 50 50 [] ⟨20, 0, 1⟩)
        (Quadtree.leaf 0 50 50 50 [] ⟨20, 0, 1⟩) ⟨20, 0, 0⟩ := by
  rw [show (Quadtree.with_options ⟨0, 0, 100, 100⟩ ⟨20, 0, 0⟩ : Quadtree (Item Nat)) =
    Quadtree.leaf 0 0 100 100 [] ⟨20, 0, 0⟩ from rfl]
  rw [put_leaf_overflow 0 0 100 100 ([] : List (Item Nat)) ⟨20, 0, 0⟩
    (⟨⟨10, 10⟩, 1⟩ : Item Nat)
    (by norm_num [Quadtree.contains, _contains, Quadtree.bounds, position, Item.point])
    (by norm_num)]
  rw [subdivide_eq, drainLoop_eq]
  norm_num [Quadtree.with_options, quadrant0, quadrant1, quadrant2, quadrant3,
    Quadtree.bounds, Quadtree.options, Quadtree.setChildren, Quadtree.setItems,
    Quadtree.items, hitFirst0, hitFirst1, hitFirst2, hitFirst3, _contains,
    position, Item.point, List.filter]

/-- C6: on the first overflow of a leaf, `put` pushes the item (temporarily
exceeding capacity), subdivides into the four quadrant children, drains the
whole list popping from the end (reverse insertion order), appends each
drained item to the first child whose boundary contains it, and ends with
an empty own list and the children installed. -/
theorem put_first_overflow {α : Type} [Position α] (x y w h : ℚ) (l : List α)
    (o : Options) (i : α)
    (hc : (Quadtree.leaf x y w h l o).contains i)
    (hcap : ¬ (l.length < o.max_items ∧ o.depth < o.max_depth)) :
    (Quadtree.leaf x y w h l o).put i =
      Quadtree.branch x y w h []
        ((Quadtree.with_options (quadrant0 ⟨x, y, w, h⟩)
            ⟨o.max_items, o.max_depth, o.depth + 1⟩).setItems
          (((l ++ [i]).reverse).filter
            (fun it => decide (hitFirst0 (quadrant0 ⟨x, y, w, h⟩) (position it)))))
        ((Quadtree.with_options (quadrant1 ⟨x, y, w, h⟩)
            ⟨o.max_items, o.max_depth, o.depth + 1⟩).setItems
          (((l ++ [i]).reverse).filter
            (fun it => decide (hitFirst1 (quadrant0 ⟨x, y, w, h⟩) (quadrant1 ⟨x, y, w, h⟩)
              (position it)))))
        ((Quadtree.with_options (quadrant2 ⟨x, y, w, h⟩)
            ⟨o.max_items, o.max_depth, o.depth + 1⟩).setItems
          (((l ++ [i]).reverse).filter
            (fun it => decide (hitFirst2 (quadrant0 ⟨x, y, w, h⟩) (quadrant1 ⟨x, y, w, h⟩)
              (quadrant2 ⟨x, y, w, h⟩) (position it)))))
        ((Quadtree.with_options (quadrant3 ⟨x, y, w, h⟩)
            ⟨o.max_items, o.max_depth, o.depth + 1⟩).setItems
          (((l ++ [i]).reverse).filter
            (fun it => decide (hitFirst3 (quadrant0 ⟨x, y, w, h⟩) (quadrant1 ⟨x, y, w, h⟩)
              (quadrant2 ⟨x, y, w, h⟩) (quadrant3 ⟨x, y, w, h⟩) (position it)))))
        o := by
  rw [put_leaf_overflow x y w h l o i hc hcap]
  rw [subdivide_eq, drainLoop_eq]
  simp only [Quadtree.bounds, Quadtree.options, with_options_bounds, with_options_items,
    List.nil_append]
  rfl

/-- Witness for C6: a one-item leaf with `max_items = 1` overflows on the
second insert; both items land in quadrant 0, in reverse insertion order. -/
theorem put_first_overflow_spot :
    (Quadtree.leaf 0 0 2 2 [(⟨⟨1, 1⟩, 1⟩ : Item Nat)] ⟨1, 3, 0⟩).put ⟨⟨1, 1⟩, 2⟩ =
      Quadtree.branch 0 0 2 2 []
        (Quadtree.leaf 0 0 1 1 [⟨⟨1, 1⟩, 2⟩, ⟨⟨1, 1⟩, 1⟩] ⟨1, 3, 1⟩)
        (Quadtree.leaf 1 0 1 1 [] ⟨1, 3, 1⟩)
        (Quadtree.leaf 1 1 1 1 [] ⟨1, 3, 1⟩)
        (Quadtree.leaf 0 1 1 1 [] ⟨1, 3, 1⟩) ⟨1, 3, 0⟩ := by
  rw [put_first_overflow 0 0 2 2 [(⟨⟨1, 1⟩, 1⟩ : Item Nat)] ⟨1, 3, 0⟩ ⟨⟨1, 1⟩, 2⟩
    (by norm_num [Quadtree.contains, _contains, Quadtree.bounds, position, Item.point])
    (by norm_num)]
  norm_num [Quadtree.with_options, quadrant0, quadrant1, quadrant2, quadrant3,
    Quadtree.setItems, hitFirst0, hitFirst1, hitFirst2, hitFirst3, _contains,
    position, Item.point, List.filter]

/-- C3 (counterexample): a drained item contained by no child is *not*
pushed back into the node's own (now oversized) list: the node over
(0, 0, 2, 2) holds an item at (9, 9) (a state the spec attributes to
floating-point boundary edges), the overflowing `put` pops it, no child
contains it, and afterwards the node's list is empty and the item is gone
from the whole tree, contradicting the claimed push-back. -/
theorem drain_unmatched_lost_spot :
    ((⟨⟨9, 9⟩, 1⟩ : Item Nat) ∈
        (Quadtree.leaf 0 0 2 2 [⟨⟨9, 9⟩, 1⟩] ⟨1, 3, 0⟩ : Quadtree (Item Nat)).items) ∧
    (¬ _contains ⟨9, 9⟩ (quadrant0 ⟨0, 0, 2, 2⟩)) ∧
    (¬ _contains ⟨9, 9⟩ (quadrant1 ⟨0, 0, 2, 2⟩)) ∧
    (¬ _contains ⟨9, 9⟩ (quadrant2 ⟨0, 0, 2, 2⟩)) ∧
    (¬ _contains ⟨9, 9⟩ (quadrant3 ⟨0, 0, 2, 2⟩)) ∧
    ((Quadtree.leaf 0 0 2 2 [⟨⟨9, 9⟩, 1⟩] ⟨1, 3, 0⟩ : Quadtree (Item Nat)).put
        ⟨⟨1, 1⟩, 2⟩).items = [] ∧
    (⟨⟨9, 9⟩, 1⟩ : Item Nat) ∉
      allItems ((Quadtree.leaf 0 0 2 2 [⟨⟨9, 9⟩, 1⟩] ⟨1, 3, 0⟩).put ⟨⟨1, 1⟩, 2⟩) := by
  have hput : (Quadtree.leaf 0 0 2 2 [(⟨⟨9, 9⟩, 1⟩ : Item Nat)] ⟨1, 3, 0⟩).put ⟨⟨1, 1⟩, 2⟩ =
      Quadtree.branch 0 0 2 2 []
        (Quadtree.leaf 0 0 1 1 [⟨⟨1, 1⟩, 2⟩] ⟨1, 3, 1⟩)
        (Quadtree.leaf 1 0 1 1 [] ⟨1, 3, 1⟩)
        (Quadtree.leaf 1 1 1 1 [] ⟨1, 3, 1⟩)
        (Quadtree.leaf 0 1 1 1 [] ⟨1, 3, 1⟩) ⟨1, 3, 0⟩ := by
    rw [put_leaf_overflow 0 0 2 2 [(⟨⟨9, 9⟩, 1⟩ : Item Nat)] ⟨1, 3, 0⟩
      (⟨⟨1, 1⟩, 2⟩ : Item Nat)
      (by norm_num [Quadtree.contains, _contains, Quadtree.bounds, position, Item.point])
      (by norm_num)]
    rw [subdivide_eq, drainLoop_eq]
    norm_num [Quadtree.with_options, quadrant0, quadrant1, quadrant2, quadrant3,
      Quadtree.bounds, Quadtree.options, Quadtree.setChildren, Quadtree.setItems,
      Quadtree.items, hitFirst0, hitFirst1, hitFirst2, hitFirst3, _contains,
      position, Item.point, List.filter]
  refine ⟨by simp [Quadtree.items], by norm_num [_contains, quadrant0],
    by norm_num [_contains, quadrant1], by norm_num [_contains, quadrant2],
    by norm_num [_contains, quadrant3], ?_, ?_⟩
  · rw [hput]; rfl
  · rw [hput]
    simp [allItems, Quadtree.items]

/-- C3 (amended): during the drain loop of the first overflow, an item
popped from the overflowing node's list that is contained by no child's
boundary is silently dropped: the node's own list ends empty and the item
appears nowhere in the resulting tree. -/
theorem drain_unmatched_item_dropped {α : Type} [Position α] (x y w h : ℚ)
    (l : List α) (o : Options) (i q : α)
    (hc : (Quadtree.leaf x y w h l o).contains i)
    (hcap : ¬ (l.length < o.max_items ∧ o.depth < o.max_depth))
    (hq : q ∈ l ++ [i])
    (h0 : ¬ _contains (position q) (quadrant0 ⟨x, y, w, h⟩))
    (h1 : ¬ _contains (position q) (quadrant1 ⟨x, y, w, h⟩))
    (h2 : ¬ _contains (position q) (quadrant2 ⟨x, y, w, h⟩))
    (h3 : ¬ _contains (position q) (quadrant3 ⟨x, y, w, h⟩)) :
    ((Quadtree.leaf x y w h l o).put i).items = [] ∧
      q ∉ allItems ((Quadtree.leaf x y w h l o).put i) := by
  rw [put_leaf_overflow x y w h l o i hc hcap]
  rw [subdivide_eq, drainLoop_eq]
  simp only [Quadtree.bounds, Quadtree.options, with_options_bounds, with_options_items,
    List.nil_append]
  constructor
  · rfl
  · intro hmem
    simp only [Quadtree.setChildren, allItems, Quadtree.with_options, Quadtree.setItems,
      List.mem_append, List.not_mem_nil, false_or] at hmem
    rcases hmem with (hk | hk) | hk
    · rcases hk with hk | hk
      · have := (List.mem_filter.mp hk).2
        simp only [decide_eq_true_eq, hitFirst0] at this
        exact h0 this
      · have := (List.mem_filter.mp hk).2
        simp only [decide_eq_true_eq, hitFirst1] at this
        exact h1 this.2
    · have := (List.mem_filter.mp hk).2
      simp only [decide_eq_true_eq, hitFirst2] at this
      exact h2 this.2.2
    · have := (List.mem_filter.mp hk).2
      simp only [decide_eq_true_eq, hitFirst3] at this
      exact h3 this.2.2.2

set_option maxHeartbeats 1000000 in
/-- Witness for C3 (amended): the item at (9, 9) held by a node over
(0, 0, 2, 2) is dropped by the overflow drain. -/
theorem drain_unmatched_item_dropped_spot :
    ((Quadtree.leaf 0 0 2 2 [(⟨⟨9, 9⟩, 1⟩ : Item Nat)] ⟨1, 3, 0⟩).put ⟨⟨1, 1⟩, 2⟩).items = [] ∧
      (⟨⟨9, 9⟩, 1⟩ : Item Nat) ∉
        allItems ((Quadtree.leaf 0 0 2 2 [⟨⟨9, 9⟩, 1⟩] ⟨1, 3, 0⟩).put ⟨⟨1, 1⟩, 2⟩) :=
  drain_unmatched_item_dropped 0 0 2 2 [(⟨⟨9, 9⟩, 1⟩ : Item Nat)] ⟨1, 3, 0⟩
    (⟨⟨1, 1⟩, 2⟩ : Item Nat) (⟨⟨9, 9⟩, 1⟩ : Item Nat)
    (by norm_num [Quadtree.contains, _contains, Quadtree.bounds, position, Item.point])
    (by norm_num) (by simp)
    (by norm_num [_contains, quadrant0, position, Item.point])
    (by norm_num [_contains, quadrant1, position, Item.point])
    (by norm_num [_contains, quadrant2, position, Item.point])
    (by norm_num [_contains, quadrant3, position, Item.point])

theorem contains_of_strictInside (p : Point) (b : Rectangle)
    (h : strictInside p b) : _contains p b := by
  obtain ⟨h1, h2, h3, h4⟩ := h
  exact ⟨le_of_lt h1, le_of_lt h2, le_of_lt h3, le_of_lt h4⟩

theorem with_options_inv {α : Type} [Position α] (b : Rectangle) (opts : Options) :
    ApiInv b (Quadtree.with_options b opts : Quadtree α) := by
  refine ApiInv.leaf b.x b.y b.width b.height [] opts rfl ?_
  intro j hj
  simp at hj

/-- C2: once a tree built through the public API has subdivided, its four
children are leaves (the tree never contains grandchildren, whatever
`max_items`, `max_depth` or the number of inserted items), and every later
in-bounds `put` pushes the item directly onto the items list of the first
child whose bounds contain its position — one child always exists — leaving
everything else (in particular the children's leaf-ness) unchanged. -/
theorem put_routes_directly_after_subdivision {α : Type} [Position α]
    (boundary : Rectangle) (opts : Options) (pts : List α)
    (c0 c1 c2 c3 : Quadtree α)
    (hch : (build boundary opts pts).children = some (c0, c1, c2, c3)) :
    (c0.children = none ∧ c1.children = none ∧ c2.children = none ∧
      c3.children = none) ∧
    (∀ i : α, (build boundary opts pts).contains i →
      (c0.contains i ∨ c1.contains i ∨ c2.contains i ∨ c3.contains i) ∧
      (c0.contains i →
        (build boundary opts pts).put i =
          (build boundary opts pts).setChildren (c0.pushItem i, c1, c2, c3)) ∧
      (¬ c0.contains i → c1.contains i →
        (build boundary opts pts).put i =
          (build boundary opts pts).setChildren (c0, c1.pushItem i, c2, c3)) ∧
      (¬ c0.contains i → ¬ c1.contains i → c2.contains i →
        (build boundary opts pts).put i =
          (build boundary opts pts).setChildren (c0, c1, c2.pushItem i, c3)) ∧
      (¬ c0.contains i → ¬ c1.contains i → ¬ c2.contains i → c3.contains i →
        (build boundary opts pts).put i =
          (build boundary opts pts).setChildren (c0, c1, c2, c3.pushItem i))) := by
  have hInv : ApiInv boundary (build boundary opts pts) := build_inv boundary opts pts
  revert hch
  generalize build boundary opts pts = T at hInv ⊢
  intro hch
  cases hInv with
  | leaf X Y W H l o hb hl => simp [Quadtree.children] at hch
  | branch X Y W H C0 C1 C2 C3 o hb h0 h1 h2 h3 =>
      simp only [Quadtree.children, Option.some.injEq, Prod.mk.injEq] at hch
      obtain ⟨e0, e1, e2, e3⟩ := hch
      subst e0; subst e1; subst e2; subst e3
      refine ⟨⟨h0.1, h1.1, h2.1, h3.1⟩, ?_⟩
      intro i hc
      have hib : _contains (position i) boundary := by
        rw [contains_def] at hc
        simpa [Quadtree.bounds, hb] using hc
      refine ⟨?_, ?_, ?_, ?_, ?_⟩
      · rcases quadrant_cover boundary (position i) hib with hq | hq | hq | hq
        · exact Or.inl ((contains_def C0 i).mpr (by rw [h0.2.1]; exact hq))
        · exact Or.inr (Or.inl ((contains_def C1 i).mpr (by rw [h1.2.1]; exact hq)))
        · exact Or.inr (Or.inr (Or.inl ((contains_def C2 i).mpr (by rw [h2.2.1]; exact hq))))
        · exact Or.inr (Or.inr (Or.inr ((contains_def C3 i).mpr (by rw [h3.2.1]; exact hq))))
      · intro k0
        rw [put_branch_eq X Y W H [] C0 C1 C2 C3 o i hc]
        unfold routeFirst
        simp only [k0, if_true]
      · intro k0 k1
        rw [put_branch_eq X Y W H [] C0 C1 C2 C3 o i hc]
        unfold routeFirst
        simp only [k0, k1, if_false, if_true]
      · intro k0 k1 k2
        rw [put_branch_eq X Y W H [] C0 C1 C2 C3 o i hc]
        unfold routeFirst
        simp only [k0, k1, k2, if_false, if_true]
      · intro k0 k1 k2 k3
        rw [put_branch_eq X Y W H [] C0 C1 C2 C3 o i hc]
        unfold routeFirst
        simp only [k0, k1, k2, k3, if_false, if_true]

set_option maxHeartbeats 1000000 in
/-- Witness for C2: after the root over (0, 0, 2, 2) with `max_items = 0`
subdivides on its first insert, its children are leaves and a later put at
(2, 1) is appended directly to child 1, the first child containing it. -/
theorem put_routes_directly_spot :
    (Quadtree.leaf 0 0 1 1 [(⟨⟨1, 1⟩, 1⟩ : Item Nat)] ⟨0, 3, 1⟩ : Quadtree (Item Nat)).children
        = none ∧
    (build ⟨0, 0, 2, 2⟩ ⟨0, 3, 0⟩ [(⟨⟨1, 1⟩, 1⟩ : Item Nat)]).put ⟨⟨2, 1⟩, 2⟩ =
      Quadtree.branch 0 0 2 2 []
        (Quadtree.leaf 0 0 1 1 [⟨⟨1, 1⟩, 1⟩] ⟨0, 3, 1⟩)
        (Quadtree.leaf 1 0 1 1 [⟨⟨2, 1⟩, 2⟩] ⟨0, 3, 1⟩)
        (Quadtree.leaf 1 1 1 1 [] ⟨0, 3, 1⟩)
        (Quadtree.leaf 0 1 1 1 [] ⟨0, 3, 1⟩) ⟨0, 3, 0⟩ := by
  have hbuild : build ⟨0, 0, 2, 2⟩ ⟨0, 3, 0⟩ [(⟨⟨1, 1⟩, 1⟩ : Item Nat)] =
      Quadtree.branch 0 0 2 2 []
        (Quadtree.leaf 0 0 1 1 [⟨⟨1, 1⟩, 1⟩] ⟨0, 3, 1⟩)
        (Quadtree.leaf 1 0 1 1 [] ⟨0, 3, 1⟩)
        (Quadtree.leaf 1 1 1 1 [] ⟨0, 3, 1⟩)
        (Quadtree.leaf 0 1 1 1 [] ⟨0, 3, 1⟩) ⟨0, 3, 0⟩ := by
    unfold build
    rw [List.foldl_cons, List.foldl_nil]
    rw [show (Quadtree.with_options ⟨0, 0, 2, 2⟩ ⟨0, 3, 0⟩ : Quadtree (Item Nat)) =
      Quadtree.leaf 0 0 2 2 [] ⟨0, 3, 0⟩ from rfl]
    rw [put_leaf_overflow 0 0 2 2 ([] : List (Item Nat)) ⟨0, 3, 0⟩ (⟨⟨1, 1⟩, 1⟩ : Item Nat)
      (by norm_num [Quadtree.contains, _contains, Quadtree.bounds, position, Item.point])
      (by norm_num)]
    rw [subdivide_eq, drainLoop_eq]
    norm_num [Quadtree.with_options, quadrant0, quadrant1, quadrant2, quadrant3,
      Quadtree.bounds, Quadtree.options, Quadtree.setChildren, Quadtree.setItems,
      Quadtree.items, hitFirst0, hitFirst1, hitFirst2, hitFirst3, _contains,
      position, Item.point, List.filter]
  have h := put_routes_directly_after_subdivision ⟨0, 0, 2, 2⟩ ⟨0, 3, 0⟩
      [(⟨⟨1, 1⟩, 1⟩ : Item Nat)]
      (Quadtree.leaf 0 0 1 1 [⟨⟨1, 1⟩, 1⟩] ⟨0, 3, 1⟩)
      (Quadtree.leaf 1 0 1 1 [] ⟨0, 3, 1⟩)
      (Quadtree.leaf 1 1 1 1 [] ⟨0, 3, 1⟩)
      (Quadtree.leaf 0 1 1 1 [] ⟨0, 3, 1⟩)
      (by rw [hbuild]; rfl)
  refine ⟨h.1.1, ?_⟩
  have hroute := (h.2 ⟨⟨2, 1⟩, 2⟩
      (by rw [hbuild]
          norm_num [Quadtree.contains, _contains, Quadtree.bounds, position, Item.point])).2.2.1
    (by norm_num [Quadtree.contains, _contains, Quadtree.bounds, position, Item.point])
    (by norm_num [Quadtree.contains, _contains, Quadtree.bounds, position, Item.point])
  rw [hroute, hbuild]
  norm_num [Quadtree.setChildren, Quadtree.pushItem, Quadtree.setItems, Quadtree.items]

set_option maxHeartbeats 1000000 in
/-- C4 (counterexample): over the degenerate root bounds (0, 0, 0, 0) an
item at (0, 0) is successfully inserted (it passes the containment check
and is stored in child 0 after the forced subdivision), yet a query over
the full root bounds returns nothing, because the strict `intersects` test
rejects the zero-area bounds. -/
theorem query_full_bounds_misses_item :
    (_contains ⟨0, 0⟩ (⟨0, 0, 0, 0⟩ : Rectangle)) ∧
    ((⟨⟨0, 0⟩, 1⟩ : Item Nat) ∈ allItems (build ⟨0, 0, 0, 0⟩ ⟨0, 3, 0⟩ [⟨⟨0, 0⟩, 1⟩])) ∧
    (build ⟨0, 0, 0, 0⟩ ⟨0, 3, 0⟩ [(⟨⟨0, 0⟩, 1⟩ : Item Nat)]).query ⟨0, 0, 0, 0⟩ = [] := by
  have hbuild : build ⟨0, 0, 0, 0⟩ ⟨0, 3, 0⟩ [(⟨⟨0, 0⟩, 1⟩ : Item Nat)] =
      Quadtree.branch 0 0 0 0 []
        (Quadtree.leaf 0 0 0 0 [⟨⟨0, 0⟩, 1⟩] ⟨0, 3, 1⟩)
        (Quadtree.leaf 0 0 0 0 [] ⟨0, 3, 1⟩)
        (Quadtree.leaf 0 0 0 0 [] ⟨0, 3, 1⟩)
        (Quadtree.leaf 0 0 0 0 [] ⟨0, 3, 1⟩) ⟨0, 3, 0⟩ := by
    unfold build
    rw [List.foldl_cons, List.foldl_nil]
    rw [show (Quadtree.with_options ⟨0, 0, 0, 0⟩ ⟨0, 3, 0⟩ : Quadtree (Item Nat)) =
      Quadtree.leaf 0 0 0 0 [] ⟨0, 3, 0⟩ from rfl]
    rw [put_leaf_overflow 0 0 0 0 ([] : List (Item Nat)) ⟨0, 3, 0⟩ (⟨⟨0, 0⟩, 1⟩ : Item Nat)
      (by norm_num [Quadtree.contains, _contains, Quadtree.bounds, position, Item.point])
      (by norm_num)]
    rw [subdivide_eq, drainLoop_eq]
    norm_num [Quadtree.with_options, quadrant0, quadrant1, quadrant2, quadrant3,
      Quadtree.bounds, Quadtree.options, Quadtree.setChildren, Quadtree.setItems,
      Quadtree.items, hitFirst0, hitFirst1, hitFirst2, hitFirst3, _contains,
      position, Item.point, List.filter]
  refine ⟨by norm_num [_contains], ?_, ?_⟩
  · rw [hbuild]
    simp [allItems, Quadtree.items]
  · rw [hbuild, query_branch_eq, if_neg (by norm_num [intersects])]

/-- C4 (amended): provided the root bounds have positive width and height,
`query` over a range equal to the full root bounds returns every item that
was successfully inserted by `put`: every in-bounds item of the insertion
sequence and, more generally, every item stored anywhere in the tree. -/
theorem query_full_bounds_complete {α : Type} [Position α] (boundary : Rectangle)
    (opts : Options) (pts : List α) (hw : 0 < boundary.width)
    (hh : 0 < boundary.height) :
    (∀ i : α, i ∈ pts → _contains (position i) boundary →
      i ∈ (build boundary opts pts).query boundary) ∧
    (∀ q ∈ allItems (build boundary opts pts),
      q ∈ (build boundary opts pts).query boundary) := by
  have hInv : ApiInv boundary (build boundary opts pts) := build_inv boundary opts pts
  have hint : intersects boundary boundary := intersects_self boundary hw hh
  constructor
  · intro i hi hib
    have hmem : i ∈ allItems (build boundary opts pts) := by
      unfold build
      exact mem_allItems_foldl boundary pts (Quadtree.with_options boundary opts) i
        (with_options_inv boundary opts) hi hib
    exact query_complete_of_inv boundary boundary (build boundary opts pts) hInv i
      hmem hib hint
  · intro q hq
    exact query_complete_of_inv boundary boundary (build boundary opts pts) hInv q hq
      (allItems_contained boundary (build boundary opts pts) hInv q hq) hint

/-- Witness for C4 (amended): an item at (1, 1) inserted into a root over
(0, 0, 2, 2) is returned by the full-bounds query. -/
theorem query_full_bounds_complete_spot :
    (⟨⟨1, 1⟩, 1⟩ : Item Nat) ∈
      (build ⟨0, 0, 2, 2⟩ ⟨20, 3, 0⟩ [⟨⟨1, 1⟩, 1⟩]).query ⟨0, 0, 2, 2⟩ :=
  (query_full_bounds_complete ⟨0, 0, 2, 2⟩ ⟨20, 3, 0⟩ [(⟨⟨1, 1⟩, 1⟩ : Item Nat)]
    (by norm_num) (by norm_num)).1 ⟨⟨1, 1⟩, 1⟩ (by simp)
    (by norm_num [_contains, position, Item.point])

/-- C5: for every point strictly inside the root bounds of a tree built
through the public API and every rectangle containing that point, inserting
an item positioned there via `put` and then querying that rectangle yields
a result including the item. -/
theorem put_then_query_finds {α : Type} [Position α] (boundary : Rectangle)
    (opts : Options) (pts : List α) (i : α) (R : Rectangle)
    (hin : strictInside (position i) boundary)
    (hR : _contains (position i) R) :
    i ∈ ((build boundary opts pts).put i).query R := by
  have hInv : ApiInv boundary (build boundary opts pts) := build_inv boundary opts pts
  have hib := contains_of_strictInside (position i) boundary hin
  have hc : (build boundary opts pts).contains i := by
    rw [contains_def, bounds_of_inv hInv]
    exact hib
  exact query_complete_of_inv boundary R ((build boundary opts pts).put i)
    (put_inv boundary (build boundary opts pts) i hInv) i
    (mem_allItems_put boundary (build boundary opts pts) i hInv hc) hR
    (intersects_of_strictInside (position i) boundary R hin hR)

/-- Witness for C5: the item at (1, 1), strictly inside (0, 0, 2, 2), is
found by querying the full bounds after insertion into a fresh tree. -/
theorem put_then_query_finds_spot :
    (⟨⟨1, 1⟩, 5⟩ : Item Nat) ∈
      ((build ⟨0, 0, 2, 2⟩ ⟨20, 3, 0⟩ ([] : List (Item Nat))).put ⟨⟨1, 1⟩, 5⟩).query
        ⟨0, 0, 2, 2⟩ :=
  put_then_query_finds ⟨0, 0, 2, 2⟩ ⟨20, 3, 0⟩ ([] : List (Item Nat)) ⟨⟨1, 1⟩, 5⟩
    ⟨0, 0, 2, 2⟩ (by norm_num [strictInside, position, Item.point])
    (by norm_num [_contains, position, Item.point])
